import Mathlib

/-!
# Verification of the pcbasic device/file layer (`devicebase.py`)

Shallow embedding of the I/O core of `pcbasic/basic/devices/devicebase.py`
(Python 2 string semantics: a "byte string" is a list of byte values,
a one-character read yields either one byte or the empty string).

Conventions of the embedding:
* a byte is a `Nat` (value 0..255 in practice);
* a possibly-empty one-character read result (`b''` vs a single char) is an
  `Option Byte` with `none` standing for the empty string `b''`;
* the readable side of a `TextFileBase` object is the structure `TF` below:
  the one-character lookahead `next_char`, the not-yet-read tail of the
  underlying stream, and the rolling `char`/`last` slots;
* the write path of `TextFileBase.write` touches only `col`/`width` and the
  output stream, so it is embedded as a pure function from the current
  column, the width setting and the string to the new column and the list of
  bytes emitted to the underlying file handle.
-/

/-- A byte value (Python 2 one-character string). -/
abbrev Byte := Nat

/-- Target type of an INPUT entry: the code only distinguishes
`typechar == values.STR` from everything else. -/
inductive TypeK where
  | str
  | num
deriving DecidableEq, Repr

/-- The BASIC error codes raised in `devicebase.py` (`error.BASICError(code)`). -/
inductive BErr where
  | DEVICE_UNAVAILABLE
  | BAD_FILE_MODE
  | DEVICE_IO_ERROR
  | INPUT_PAST_END
deriving DecidableEq, Repr

/-- `TextFileBase.whitespace_input = b' \0\n'`: whitespace for INPUT#
(TAB is deliberately not included). -/
def whitespace_input : List Byte := [32, 0, 10]

/-- Reading-side state of a `TextFileBase`: the lookahead slot `next_char`
(`none` = `b''`, i.e. physical end of stream), the unread remainder of the
underlying stream, and the rolling `char`/`last` slots that `input_chars`
shifts on every consumed character. -/
structure TF where
  next_char : Option Byte
  stream : List Byte
  char : Option Byte
  last : Option Byte
deriving DecidableEq, Repr

namespace TF

/-- Construct the read state for a fresh Input-mode text file over a byte
stream: `TextFileBase.__init__` primes the lookahead with one prefetched
character (`self.next_char = self._fhandle.read(1)`), `char`/`last` start
empty. -/
def ofStream (s : List Byte) : TF :=
  match s with
  | [] => ⟨none, [], none, none⟩
  | b :: rest => ⟨some b, rest, none, none⟩

/-- Number of characters still reachable through the lookahead. -/
def size (f : TF) : Nat :=
  f.stream.length + (match f.next_char with | some _ => 1 | none => 0)

/-- `TextFileBase.read_one` = `input_chars(1)`: return the lookahead
character unless it is empty or the soft-EOF marker `\x1a` (both of which
stop reading without consuming), shifting `next_char → char → last` and
refilling `next_char` from the stream. -/
def read_one (f : TF) : Option Byte × TF :=
  match f.next_char with
  | none => (none, f)
  | some b =>
    if b = 26 then (none, f)
    else
      match f.stream with
      | [] => (some b, ⟨none, [], some b, f.char⟩)
      | d :: rest => (some b, ⟨some d, rest, some b, f.char⟩)

theorem read_one_none_eq {f f' : TF} (h : f.read_one = (none, f')) : f' = f := by
  obtain ⟨nc, st, ch, la⟩ := f
  rcases nc with _ | b
  · simp [read_one] at h
    exact h.symm
  · by_cases h26 : b = 26
    · subst h26
      simp [read_one] at h
      exact h.symm
    · rcases st with _ | ⟨d, rest⟩ <;> simp [read_one, h26] at h

theorem read_one_some_size {f f' : TF} {b : Byte} (h : f.read_one = (some b, f')) :
    f'.size + 1 = f.size := by
  obtain ⟨nc, st, ch, la⟩ := f
  rcases nc with _ | c
  · simp [read_one] at h
  · by_cases h26 : c = 26
    · subst h26
      simp [read_one] at h
    · rcases st with _ | ⟨d, rest⟩ <;>
        simp [read_one, h26] at h <;>
        simp [← h.2, size]

theorem read_one_size_le (f : TF) : (f.read_one).2.size ≤ f.size := by
  rcases h : f.read_one with ⟨c, f'⟩
  rcases c with _ | b
  · show f'.size ≤ _
    rw [read_one_none_eq h]
  · show f'.size ≤ _
    have := read_one_some_size h
    omega

/-- `TextFileBase._skip_whitespace(self.whitespace_input)`: skip a run of
space/NUL/LF, remembering the last skipped character in `acc`; an LF whose
successor is CR drops that CR as well (LFCR collapses, reported as LF).
The `acc` accumulator is the local variable `c` (initially `b''`). -/
def skip_whitespace_input (f : TF) (acc : Option Byte) : Option Byte × TF :=
  match hn : f.next_char with
  | none => (acc, f)
  | some b =>
    if hb : b ∈ whitespace_input then
      match h1 : f.read_one with
      | (none, _) => (acc, f)   -- unreachable: next_char is a non-EOF whitespace char
      | (some c, f1) =>
        let f2 := if c = 10 ∧ f1.next_char = some 13 then (f1.read_one).2 else f1
        skip_whitespace_input f2 (some c)
    else (acc, f)
termination_by f.size
decreasing_by
  have h2 := read_one_some_size h1
  have h3 := read_one_size_le f1
  split <;> omega

/-- `TextFileBase._skip_whitespace(b' ')`: skip a run of plain spaces (used
after a field to skip trailing blanks); the LFCR clause of
`_skip_whitespace` is kept although it cannot fire here. -/
def skip_spaces (f : TF) (acc : Option Byte) : Option Byte × TF :=
  match hn : f.next_char with
  | none => (acc, f)
  | some b =>
    if hb : b = 32 then
      match h1 : f.read_one with
      | (none, _) => (acc, f)   -- unreachable
      | (some c, f1) =>
        let f2 := if c = 10 ∧ f1.next_char = some 13 then (f1.read_one).2 else f1
        skip_spaces f2 (some c)
    else (acc, f)
termination_by f.size
decreasing_by
  have h2 := read_one_some_size h1
  have h3 := read_one_size_le f1
  split <;> omega

end TF

/-! ## `TextFileBase.write` -/

/-- The prefix scan of `TextFileBase.write`: walk `s` up to the first CR or
LF, counting the printable characters (`ord(c) >= 32`); returns the
printable width of the first line and whether a newline was seen. -/
def line_width_newline : List Byte → Nat × Bool
  | [] => (0, false)
  | c :: rest =>
    if c = 13 ∨ c = 10 then (0, true)
    else
      let r := line_width_newline rest
      (if 32 ≤ c then r.1 + 1 else r.1, r.2)

/-- The character loop of `TextFileBase.write`: each character is written to
the file handle verbatim; CR resets `col` to 1, every printable character
(`ord(c) >= 32`) increments `col`, wrapping 257 → 1.  Returns the final
column and the bytes written. -/
def write_chars : Nat → List Byte → Nat × List Byte
  | col, [] => (col, [])
  | col, c :: rest =>
    if c = 13 then
      let r := write_chars 1 rest
      (r.1, 13 :: r.2)
    else
      let col1 := if 32 ≤ c then (if col + 1 = 257 then 1 else col + 1) else col
      let r := write_chars col1 rest
      (r.1, c :: r.2)

/-- `TextFileBase.write(s, can_break)`, as a function of the current column
and width: if `can_break`, `width != 255`, `col != 1`, the printable width
of the first line of `s` overflows `width` and `s` holds no newline, a line
break is emitted first (`self.write_line()` reduces to writing the single
byte CR — its inner `write(b'\r')` sees `newline=True` and cannot break
again — and `self.col = 1`).  Then the characters of `s` are written.
Returns the final column and the bytes emitted to the file handle. -/
def tf_write (col width : Nat) (s : List Byte) (can_break : Bool) : Nat × List Byte :=
  let lw := line_width_newline s
  if can_break = true ∧ width ≠ 255 ∧ col ≠ 1 ∧ col - 1 + lw.1 > width ∧ lw.2 = false then
    let r := write_chars 1 s
    (r.1, 13 :: r.2)
  else write_chars col s

/-! ## `TextFileBase.read_line` -/

/-- Terminator value of `read_line`: Python returns `b'\r'`, `b''` or
`None`; embedded as `some (some 13)`, `some none`, `none` respectively. -/
abbrev LineTerm := Option (Option Byte)

/-- The loop of `TextFileBase.read_line`: read characters with `read_one`
until an empty read (EOF/soft EOF, terminator `b''`), a CR (terminator
`b'\r'`), or until the accumulated line reaches 255 characters — in which
case the terminator is `b'\r'` if the next unread character is CR (left
unconsumed) and `None` otherwise. -/
def read_line_go (f : TF) (out : List Byte) : List Byte × LineTerm × TF :=
  match h : f.read_one with
  | (none, f') => (out, some none, f')
  | (some c, f') =>
    if c = 13 then (out, some (some 13), f')
    else
      let out' := out ++ [c]
      if out'.length = 255 then
        (out', if f'.next_char = some 13 then some (some 13) else none, f')
      else read_line_go f' out'
termination_by f.size
decreasing_by
  have := TF.read_one_some_size h
  omega

/-- `TextFileBase.read_line()`. -/
def read_line (f : TF) : List Byte × LineTerm × TF := read_line_go f []

/-! ## `TextFileBase.input_entry` — the buffered INPUT# tokenizer -/

/-- Termination weight of the character in hand during a tokenizer scan. -/
def optWeight : Option Byte → Nat
  | some _ => 1
  | none => 0

/-- The `quoted` condition of `input_entry`:
`quoted = (c == b'"' and typechar == values.STR and last not in (b'\n', b'\0'))`. -/
def inputQuoted (tc : TypeK) (c last : Option Byte) : Bool :=
  c = some 34 && tc = TypeK.str && !(last = some 10) && !(last = some 0)

/-- The state of `input_entry` after its preamble. -/
structure BufHead where
  /-- last whitespace character skipped ahead of the field (`b''` = none skipped) -/
  last : Option Byte
  /-- first non-whitespace character read -/
  c1 : Option Byte
  /-- whether the field is read in quoted mode -/
  quoted : Bool
  /-- the character in hand after consuming the opening quote, if any -/
  c2 : Option Byte
  /-- file state after the preamble -/
  st : TF
deriving DecidableEq, Repr

/-- Preamble of `input_entry`: skip leading INPUT whitespace remembering the
last skipped character, read the first non-whitespace character, decide
quoted mode, and — if quoting applies — consume the quote and read the next
character. -/
def input_entry_head (tc : TypeK) (f : TF) : BufHead :=
  let sw := f.skip_whitespace_input none
  let last := sw.1
  let r1 := sw.2.read_one
  let c1 := r1.1
  let quoted := inputQuoted tc c1 last
  let r2 := if quoted then r1.2.read_one else (c1, r1.2)
  ⟨last, c1, quoted, r2.1, r2.2⟩

/-- The non-control branches of the scan loop body, shared verbatim by both
tokenizer variants: NUL is dropped (even within quotes), unquoted INPUT
whitespace is buffered into `blanks` for string targets only, any other
character flushes `blanks` into `word` and is appended. -/
def scan_update (tc : TypeK) (quoted : Bool) (b : Byte) (word blanks : List Byte) :
    List Byte × List Byte :=
  if b = 0 then (word, blanks)
  else if b ∈ whitespace_input ∧ quoted = false then
    (word, if tc = TypeK.str then blanks ++ [b] else blanks)
  else (word ++ blanks ++ [b], [])

/-- The main scan loop of `input_entry`.  `c` is the character in hand,
`word` the accumulated value, `blanks` the pending run of buffered
whitespace.  Loop guard:
`while c and not ((typechar != STR and c in soft_sep) or (c in b',\r' and not quoted))`.
Body branches, in source order: closing quote (break), unquoted LF / LFCR
(dropped, `continue`), then the `scan_update` branches.  A hard cap breaks
the scan once `len(word) + len(blanks) >= 255`.  The next character comes
from `read_one()` when unquoted and `input_chars(1)` when quoted —
identical functions on `TextFileBase`, where no control-code replacement
happens.  Returns `(word, terminator character, file state)`. -/
def input_scan (tc : TypeK) (soft_sep : List Byte) (quoted : Bool) :
    TF → Option Byte → List Byte → List Byte → List Byte × Option Byte × TF
  | f, none, word, _blanks => (word, none, f)
  | f, some b, word, blanks =>
    if (tc ≠ TypeK.str ∧ b ∈ soft_sep) ∨ ((b = 44 ∨ b = 13) ∧ quoted = false) then
      (word, some b, f)
    else if b = 34 ∧ quoted = true then
      (word, some b, f)
    else if b = 10 ∧ quoted = false then
      match h1 : f.read_one with
      | (none, f1) => input_scan tc soft_sep quoted f1 none word blanks
      | (some 13, f1) =>
        match h2 : f1.read_one with
        | (c2, f2) => input_scan tc soft_sep quoted f2 c2 word blanks
      | (some c1, f1) => input_scan tc soft_sep quoted f1 (some c1) word blanks
    else
      let wb := scan_update tc quoted b word blanks
      if wb.1.length + wb.2.length ≥ 255 then (wb.1, some b, f)
      else
        match h3 : f.read_one with
        | (c', f') => input_scan tc soft_sep quoted f' c' wb.1 wb.2
termination_by f c => f.size + optWeight c
decreasing_by
  · have := TF.read_one_none_eq h1
    subst this
    simp only [optWeight]
    omega
  · have ha := TF.read_one_some_size h1
    rcases c2 with _ | c2v
    · have := TF.read_one_none_eq h2
      subst this
      simp only [optWeight]
      omega
    · have hb := TF.read_one_some_size h2
      simp only [optWeight]
      omega
  · have := TF.read_one_some_size h1
    simp only [optWeight]
    omega
  · rcases c' with _ | cv
    · have := TF.read_one_none_eq h3
      subst this
      simp only [optWeight]
      omega
    · have := TF.read_one_some_size h3
      simp only [optWeight]
      omega

/-- Is `self.next_char in b',\r'` true?  Python 2 substring semantics: the
empty string (`next_char` at EOF) is a substring of every string, so this
is also true when `next_char` is empty. -/
def next_in_comma_cr (f : TF) : Bool :=
  match f.next_char with
  | none => true
  | some b => b = 44 || b = 13

/-- Is `c` a nonempty INPUT-whitespace character?  (`c and c in
self.whitespace_input` — the `c and` guard keeps the empty string out.) -/
def ws_term (c : Option Byte) : Bool :=
  match c with
  | none => false
  | some b => decide (b ∈ whitespace_input)

/-- `TextFileBase.input_entry(typechar, allow_past_end)`: the complete
buffered INPUT# tokenizer, parameterised by `soft_sep` (`b' '` on
`TextFileBase`, `b''` on `InputTextFile`).  Returns the field value, the
terminator character and the final file state, or the error
`INPUT_PAST_END`. -/
def input_entry (soft_sep : List Byte) (tc : TypeK) (allow_past_end : Bool) (f : TF) :
    Except BErr (List Byte × Option Byte × TF) :=
  let h := input_entry_head tc f
  if h.c2 = none ∧ allow_past_end = false ∧ h.last ≠ some 10 ∧ h.last ≠ some 0 then
    .error .INPUT_PAST_END
  else
    let r := input_scan tc soft_sep h.quoted h.st h.c2 [] []
    let word := r.1
    let c := r.2.1
    let f4 := r.2.2
    if ws_term c = true ∨ (h.quoted = true ∧ c = some 34) then
      let f5 := (f4.skip_spaces none).2
      if next_in_comma_cr f5 then
        let r6 := f5.read_one
        .ok (word, r6.1, r6.2)
      else .ok (word, c, f5)
    else .ok (word, c, f4)

/-! ## `input_entry_realtime` — the realtime (KYBD:/COMn:) INPUT# tokenizer

One "character" `c` of the realtime loop is a whole Python 2 byte string,
not necessarily a single byte: `KYBDFile.read_one` blocks until it has at
least one byte and passes unmapped eascii codes through whole
(`self._input_replace.get(c, c)` — its own comment notes that
`read_bytes_kybd_file` can return multi-byte eascii codes), so one read can
deliver several bytes, including NUL-prefixed extended codes.  The source is
therefore modelled as the list of the successive `read_one()` results, each
a byte string; once exhausted it yields the empty string (modelling the
exhaustible realtime sources such as COMn: — a live KYBD: read blocks and
never returns the empty string).  The loop's comparisons split accordingly:
`c == b'\0'`, `c == b'\n'`, `c == b'"'`, `c == b' '` are whole-string
equalities, while `c in b',\r'`, `c in self.whitespace_input` are Python 2
contiguous-substring tests. -/

/-- Python 2 `c in s` on byte strings: `c` occurs as a contiguous substring
of `s`; the empty string is a substring of every string. -/
def py_in (c s : List Byte) : Bool := decide (c <:+: s)

/-- One read from the realtime character source: the next `read_one()`
result, or the empty string once the source is exhausted. -/
def rt_read_one (src : List (List Byte)) : List Byte × List (List Byte) :=
  match src with
  | [] => ([], [])
  | c :: rest => (c, rest)

/-- Termination weight of the byte string in hand. -/
def rtWeight (c : List Byte) : Nat := if c = [] then 0 else 1

theorem rt_read_one_size {src src' : List (List Byte)} {c : List Byte}
    (h : rt_read_one src = (c, src')) :
    src'.length + rtWeight c ≤ src.length := by
  cases src with
  | nil =>
    simp only [rt_read_one, Prod.mk.injEq] at h
    obtain ⟨h1, h2⟩ := h
    subst h1
    subst h2
    simp [rtWeight]
  | cons x rest =>
    simp only [rt_read_one, Prod.mk.injEq] at h
    obtain ⟨h1, h2⟩ := h
    subst h1
    subst h2
    by_cases hx : x = [] <;> simp [rtWeight, hx] <;> omega

/-- A `rt_read_one` step preserves "NUL only ever arrives as the lone
string `b'\0'`": the string read satisfies it and so does the rest of the
source. -/
theorem rt_read_one_prop {src src' : List (List Byte)} {c : List Byte}
    (h : rt_read_one src = (c, src'))
    (H : ∀ s ∈ src, (0 : Byte) ∈ s → s = [0]) :
    ((0 : Byte) ∈ c → c = [0]) ∧ ∀ s ∈ src', (0 : Byte) ∈ s → s = [0] := by
  cases src with
  | nil =>
    simp only [rt_read_one, Prod.mk.injEq] at h
    obtain ⟨h1, h2⟩ := h
    subst h1
    subst h2
    simp
  | cons x rest =>
    simp only [rt_read_one, Prod.mk.injEq] at h
    obtain ⟨h1, h2⟩ := h
    subst h1
    subst h2
    exact ⟨H x (by simp), fun s hs => H s (by simp [hs])⟩

/-- State of a realtime-input file (`KYBDFile`): the pending `read_one()`
results plus `_input_last`, the one-slot pushback buffer for a separator
string that broke the previous field (`[]` = `b''` = empty). -/
structure RT where
  reads : List (List Byte)
  input_last : List Byte
deriving DecidableEq, Repr

/-- `c not in self.whitespace_input` under Python 2 substring semantics:
false for the empty string and for every contiguous substring of
`b' \0\n'`. -/
def not_ws_rt (c : List Byte) : Bool := !(py_in c whitespace_input)

/-- The state of `input_entry_realtime` after its preamble. -/
structure RtHead where
  /-- first string in hand: the pushback slot if occupied, else one `read_one()` -/
  c1 : List Byte
  /-- quoted mode: `c == b'"' and typechar == values.STR` (no whitespace condition) -/
  quoted : Bool
  /-- string in hand after consuming the opening quote, if any -/
  c2 : List Byte
  /-- remaining source after the preamble -/
  st : List (List Byte)
deriving DecidableEq, Repr

/-- Preamble of `input_entry_realtime`: take the pushback string if present
(clearing the slot), else read once; decide quoted mode (`c == b'"'` —
whole-string equality); if quoting applies consume the quote and read the
next string.  There is no leading-whitespace skip in the realtime
variant. -/
def input_entry_realtime_head (tc : TypeK) (r : RT) : RtHead :=
  let r0 := if r.input_last = [] then rt_read_one r.reads else (r.input_last, r.reads)
  let c1 := r0.1
  let quoted := c1 = [34] && tc = TypeK.str
  let r1 := if quoted then rt_read_one r0.2 else (c1, r0.2)
  ⟨c1, quoted, r1.1, r1.2⟩

/-- The realtime analogue of `scan_update`, over whole byte strings:
`c == b'\0'` drops only the lone NUL string (a multi-byte string containing
NUL fails the equality and is appended verbatim!), `c in whitespace_input`
is a substring test buffering the whole string into `blanks` for string
targets, any other string is appended whole after flushing `blanks`. -/
def rt_update (tc : TypeK) (quoted : Bool) (c : List Byte) (word blanks : List Byte) :
    List Byte × List Byte :=
  if c = [0] then (word, blanks)
  else if py_in c whitespace_input = true ∧ quoted = false then
    (word, if tc = TypeK.str then blanks ++ c else blanks)
  else (word ++ blanks ++ c, [])

/-- The main scan loop of `input_entry_realtime`.  Loop guard:
`while c and not (c in b',\r' and not quoted)` — no soft-separator clause,
`in` a substring test.  Branches in source order: closing quote (`c ==
b'"'`) sets `parsing_trail` (no break), unquoted LF (`c == b'\n'`) / LFCR
dropped (`continue`), then the `rt_update` branches; 255 cap; then one
`read_one()` — after which, if `parsing_trail` is set and the new string is
nonempty and not a whitespace substring, the loop breaks, pushing the
string back into `_input_last` unless it equals comma or CR; finally
`parsing_trail` also becomes set once a numeric field reads a lone space.
Returns `(word, terminator, remaining source, new pushback slot)`. -/
def rt_scan (tc : TypeK) (quoted : Bool) :
    List (List Byte) → List Byte → List Byte → List Byte → Bool →
      List Byte × List Byte × List (List Byte) × List Byte
  | src, c, word, blanks, pt =>
    if hc : c = [] then (word, [], src, [])
    else if py_in c [44, 13] = true ∧ quoted = false then (word, c, src, [])
    else if c = [10] ∧ quoted = false then
      match h1 : rt_read_one src with
      | (c1, src1) =>
        if c1 = [13] then
          match h2 : rt_read_one src1 with
          | (c2, src2) => rt_scan tc quoted src2 c2 word blanks pt
        else rt_scan tc quoted src1 c1 word blanks pt
    else
      let wbp :=
        if c = [34] ∧ quoted = true then (word, blanks, true)
        else
          let wb := rt_update tc quoted c word blanks
          (wb.1, wb.2, pt)
      if wbp.1.length + wbp.2.1.length ≥ 255 then (wbp.1, c, src, [])
      else
        match h3 : rt_read_one src with
        | (c', src') =>
          if wbp.2.2 = true ∧ not_ws_rt c' = true then
            if c' = [44] ∨ c' = [13] then (wbp.1, c', src', [])
            else (wbp.1, c', src', c')
          else
            rt_scan tc quoted src' c' wbp.1 wbp.2.1
              (wbp.2.2 || (tc ≠ TypeK.str && c' = [32]))
termination_by src c => src.length + rtWeight c
decreasing_by
  · have ha := rt_read_one_size h1
    have hb := rt_read_one_size h2
    have hcw : rtWeight c = 1 := by simp [rtWeight, hc]
    omega
  · have ha := rt_read_one_size h1
    have hcw : rtWeight c = 1 := by simp [rtWeight, hc]
    omega
  · have ha := rt_read_one_size h3
    have hcw : rtWeight c = 1 := by simp [rtWeight, hc]
    omega

/-- `input_entry_realtime(self, typechar, allow_past_end)`: the tokenizer
bound to `KYBDFile.input_entry` (and used for COMn:).  The EOF guard
`if not c and not allow_past_end: raise INPUT_PAST_END` has no
last-whitespace condition. -/
def input_entry_realtime (tc : TypeK) (allow_past_end : Bool) (r : RT) :
    Except BErr (List Byte × List Byte × RT) :=
  let h := input_entry_realtime_head tc r
  if h.c2 = [] ∧ allow_past_end = false then .error .INPUT_PAST_END
  else
    let s := rt_scan tc h.quoted h.st h.c2 [] [] false
    .ok (s.1, s.2.1, ⟨s.2.2.1, s.2.2.2⟩)

/-! ## `Device.open` and the master/clone protocol -/

/-- A device file as far as `Device.open` and `open_clone` are concerned:
the master flag, the per-handle settings that `open_clone` overwrites, and
the shared hardware reference (`self._keyboard`/`self._display`), here an
opaque identifier. -/
structure DevFile where
  is_master : Bool
  filetype : Byte
  mode : Byte
  reclen : Nat
  hw : Nat
deriving DecidableEq, Repr

/-- `open_clone(filetype, mode, reclen)` as implemented by
`KYBDFile.open_clone` / `SCRNFile.open_clone`: construct a fresh file over
the same hardware object, overwrite `mode`, `reclen`, `filetype` and clear
the master flag. -/
def open_clone (f : DevFile) (filetype mode : Byte) (reclen : Nat) : DevFile :=
  { is_master := false, filetype := filetype, mode := mode, reclen := reclen, hw := f.hw }

/-- A master-file device: at most one master file, plus the class attribute
`allowed_modes`. -/
structure Device where
  device_file : Option DevFile
  allowed_modes : List Byte
deriving DecidableEq, Repr

/-- `Device.open(...)` (the mode/availability dispatch; the many unused
positional arguments are omitted): `DEVICE_UNAVAILABLE` if there is no
master file, `BAD_FILE_MODE` if the mode is not allowed, else the clone
produced by the master file's `open_clone`.  The method body never assigns
to `self`, so the (unchanged) device is returned alongside the new file. -/
def Device.open' (d : Device) (filetype mode : Byte) (reclen : Nat) :
    Except BErr (DevFile × Device) :=
  match d.device_file with
  | none => .error .DEVICE_UNAVAILABLE
  | some mf =>
    if mode ∉ d.allowed_modes then .error .BAD_FILE_MODE
    else .ok (open_clone mf filetype mode reclen, d)

/-! ## `SCRNFile.set_width` / `KYBDFile.set_width` -/

/-- The live display object, reduced to the state these claims touch:
the real screen width (`display.mode.width`). -/
structure Display where
  width : Nat
deriving DecidableEq, Repr

/-- `display.set_width(w)`. -/
def Display.set_width (d : Display) (w : Nat) : Display := { width := w }

/-- A `SCRNFile` handle: the master flag and the private virtual width
`self._width` used when the handle is not the master. -/
structure ScrnFile where
  is_master : Bool
  priv_width : Nat
deriving DecidableEq, Repr

/-- The `width` property of `SCRNFile`: the live display width for the
master file, the private `_width` for a clone. -/
def ScrnFile.width_of (f : ScrnFile) (d : Display) : Nat :=
  if f.is_master then d.width else f.priv_width

/-- `SCRNFile.set_width(new_width)`: the master forwards to
`self._display.set_width`, a clone only sets its private `_width`. -/
def ScrnFile.set_width (f : ScrnFile) (d : Display) (w : Nat) : ScrnFile × Display :=
  if f.is_master then (f, d.set_width w) else ({ f with priv_width := w }, d)

/-- A `KYBDFile` handle: the master flag plus the (inherited, here inert)
`TextFileBase.width` field, which `KYBDFile.set_width` never touches. -/
structure KybdFile where
  is_master : Bool
  width : Nat
deriving DecidableEq, Repr

/-- `KYBDFile.set_width(new_width)`: only the master keyboard file forwards
the change to the display; on a clone the call does nothing at all. -/
def KybdFile.set_width (f : KybdFile) (d : Display) (w : Nat) : KybdFile × Display :=
  if f.is_master then (f, d.set_width w) else (f, d)

/-! ## The claims -/

/-- The Boolean `quoted` condition, unfolded to a proposition. -/
theorem inputQuoted_iff (tc : TypeK) (c last : Option Byte) :
    inputQuoted tc c last = true ↔
      (tc = TypeK.str ∧ c = some 34 ∧ last ≠ some 10 ∧ last ≠ some 0) := by
  simp [inputQuoted]
  tauto

theorem head_quoted (tc : TypeK) (f : TF) :
    (input_entry_head tc f).quoted
      = inputQuoted tc (input_entry_head tc f).c1 (input_entry_head tc f).last := rfl

theorem head_c1 (tc : TypeK) (f : TF) :
    (input_entry_head tc f).c1 = (f.skip_whitespace_input none).2.read_one.1 := rfl

theorem head_last (tc : TypeK) (f : TF) :
    (input_entry_head tc f).last = (f.skip_whitespace_input none).1 := rfl

/-- C1: in the buffered `input_entry`, for every input stream the field is
read in quoted mode iff the target is string-typed, the first
non-whitespace character read is a double quote, and the last character
skipped in the leading whitespace run was neither LF nor NUL; for a numeric
target quoting never applies. -/
theorem c1_quoted_mode (tc : TypeK) (f : TF) :
    ((input_entry_head tc f).quoted = true ↔
      (tc = TypeK.str ∧ (input_entry_head tc f).c1 = some 34 ∧
        (input_entry_head tc f).last ≠ some 10 ∧ (input_entry_head tc f).last ≠ some 0)) ∧
    (input_entry_head TypeK.num f).quoted = false := by
  constructor
  · rw [head_quoted, inputQuoted_iff]
  · rw [head_quoted]
    simp [inputQuoted]

/-- A file holding exactly one double quote: the character after the
consumed opening quote is then EOF. -/
def quoteEofSt : TF := ⟨some 34, [], none, none⟩

/-- C2 counterexample: on the input consisting of a single `"`, with a
string target and `allow_past_end = False`, a character *is* available
after the whitespace skip (the quote) and quoting *does* apply — yet
`input_entry` raises INPUT_PAST_END, because the guard `if not c …` tests
the character read after consuming the opening quote.  The claim predicts
no error in every case where quoting applies. -/
theorem c2_counterexample :
    input_entry [32] TypeK.str false quoteEofSt = .error BErr.INPUT_PAST_END ∧
    (input_entry_head TypeK.str quoteEofSt).c1 = some 34 ∧
    (input_entry_head TypeK.str quoteEofSt).quoted = true := by
  refine ⟨?_, ?_, ?_⟩ <;>
    simp [input_entry, input_entry_head, quoteEofSt, TF.skip_whitespace_input,
      TF.read_one, inputQuoted, whitespace_input]

/-- C2 amended: `input_entry` raises INPUT_PAST_END exactly when the
character in hand after the preamble — the first non-whitespace character,
or the character after the opening quote when quoting applies — is
unavailable (true EOF), `allow_past_end` is false, and the last skipped
whitespace character was neither LF nor NUL. -/
theorem c2_amended (soft_sep : List Byte) (tc : TypeK) (ape : Bool) (f : TF) :
    input_entry soft_sep tc ape f = .error BErr.INPUT_PAST_END ↔
      ((input_entry_head tc f).c2 = none ∧ ape = false ∧
        (input_entry_head tc f).last ≠ some 10 ∧ (input_entry_head tc f).last ≠ some 0) := by
  unfold input_entry
  by_cases hcond : ((input_entry_head tc f).c2 = none ∧ ape = false ∧
      (input_entry_head tc f).last ≠ some 10 ∧ (input_entry_head tc f).last ≠ some 0)
  · rw [if_pos hcond]
    simp [hcond]
  · rw [if_neg hcond]
    refine iff_of_false ?_ hcond
    intro hcontra
    dsimp only at hcontra
    split at hcontra
    · split at hcontra <;> exact Except.noConfusion hcontra
    · exact Except.noConfusion hcontra

/-- A realtime file over an exhausted character source, with an empty
pushback slot. -/
def rtEmptySt : RT := ⟨[], []⟩

/-- C3 counterexample: `input_entry_realtime` *does* contain an
EOF-overflow guard (`if not c and not allow_past_end: raise
error.BASICError(error.INPUT_PAST_END)`): over an exhausted source it
raises INPUT_PAST_END, contradicting the claim that only the
buffered-source variant can raise it. -/
theorem c3_counterexample :
    input_entry_realtime TypeK.num false rtEmptySt = .error BErr.INPUT_PAST_END := by
  simp [input_entry_realtime, input_entry_realtime_head, rtEmptySt, rt_read_one]

/-- C3 amended: the realtime variant retains the EOF guard but drops the
last-skipped-whitespace condition: it raises INPUT_PAST_END exactly when
the string in hand after its preamble is empty and `allow_past_end` is
false.  (On a live KYBD: file `read_one` blocks until a character arrives
and never returns the empty string, so there the guard cannot fire; the
guard is reachable for exhaustible realtime sources such as COMn:.) -/
theorem c3_amended (tc : TypeK) (ape : Bool) (r : RT) :
    input_entry_realtime tc ape r = .error BErr.INPUT_PAST_END ↔
      ((input_entry_realtime_head tc r).c2 = [] ∧ ape = false) := by
  unfold input_entry_realtime
  by_cases hcond : ((input_entry_realtime_head tc r).c2 = [] ∧ ape = false)
  · rw [if_pos hcond]
    simp [hcond]
  · rw [if_neg hcond]
    refine iff_of_false ?_ hcond
    intro hcontra
    dsimp only at hcontra
    exact Except.noConfusion hcontra

/-- C8: `Device.open` fails with DEVICE_UNAVAILABLE when the device has no
master file; otherwise fails with BAD_FILE_MODE when the mode is not
allowed; otherwise returns the master file's `open_clone` result, leaving
the device state unchanged. -/
theorem c8_device_open (d : Device) (ft mode : Byte) (reclen : Nat) :
    (d.device_file = none → d.open' ft mode reclen = .error BErr.DEVICE_UNAVAILABLE) ∧
    (∀ mf, d.device_file = some mf → mode ∉ d.allowed_modes →
      d.open' ft mode reclen = .error BErr.BAD_FILE_MODE) ∧
    (∀ mf, d.device_file = some mf → mode ∈ d.allowed_modes →
      d.open' ft mode reclen = .ok (open_clone mf ft mode reclen, d)) := by
  refine ⟨fun h0 => ?_, fun mf h1 h2 => ?_, fun mf h1 h2 => ?_⟩
  · simp [Device.open', h0]
  · simp [Device.open', h1, h2]
  · simp [Device.open', h1, h2]

theorem c8_device_open_witness :
    ((⟨none, [73]⟩ : Device).open' 68 73 128 = .error BErr.DEVICE_UNAVAILABLE) ∧
    ((⟨some ⟨true, 68, 65, 128, 0⟩, [73, 82]⟩ : Device).open' 68 79 128
        = .error BErr.BAD_FILE_MODE) ∧
    ((⟨some ⟨true, 68, 65, 128, 0⟩, [73, 82]⟩ : Device).open' 68 73 128
        = .ok (open_clone ⟨true, 68, 65, 128, 0⟩ 68 73 128, ⟨some ⟨true, 68, 65, 128, 0⟩, [73, 82]⟩)) :=
  ⟨(c8_device_open ⟨none, [73]⟩ 68 73 128).1 rfl,
   (c8_device_open ⟨some ⟨true, 68, 65, 128, 0⟩, [73, 82]⟩ 68 79 128).2.1 _ rfl (by decide),
   (c8_device_open ⟨some ⟨true, 68, 65, 128, 0⟩, [73, 82]⟩ 68 73 128).2.2 _ rfl (by decide)⟩

/-- C9: a clone's `set_width` (screen or keyboard) leaves the live display
state — and hence the master's and every other handle's observable width —
unchanged; the master's `set_width` sets the live display width. -/
theorem c9_set_width_frame (f g : ScrnFile) (k : KybdFile) (d : Display) (w : Nat) :
    (f.is_master = false →
      (ScrnFile.set_width f d w).2 = d ∧
      ScrnFile.width_of g (ScrnFile.set_width f d w).2 = ScrnFile.width_of g d) ∧
    (f.is_master = true → ((ScrnFile.set_width f d w).2).width = w) ∧
    (k.is_master = false → KybdFile.set_width k d w = (k, d)) ∧
    (k.is_master = true → ((KybdFile.set_width k d w).2).width = w) := by
  refine ⟨fun hf => ?_, fun hf => ?_, fun hk => ?_, fun hk => ?_⟩ <;>
    simp [ScrnFile.set_width, KybdFile.set_width, Display.set_width, *]

theorem c9_set_width_frame_witness :
    ((ScrnFile.set_width ⟨false, 40⟩ ⟨80⟩ 20).2 = ⟨80⟩ ∧
      ScrnFile.width_of ⟨true, 0⟩ (ScrnFile.set_width ⟨false, 40⟩ ⟨80⟩ 20).2
        = ScrnFile.width_of ⟨true, 0⟩ ⟨80⟩) ∧
    ((ScrnFile.set_width ⟨true, 40⟩ ⟨80⟩ 20).2).width = 20 ∧
    KybdFile.set_width ⟨false, 255⟩ ⟨80⟩ 20 = (⟨false, 255⟩, ⟨80⟩) ∧
    ((KybdFile.set_width ⟨true, 255⟩ ⟨80⟩ 20).2).width = 20 :=
  ⟨(c9_set_width_frame ⟨false, 40⟩ ⟨true, 0⟩ ⟨false, 255⟩ ⟨80⟩ 20).1 rfl,
   (c9_set_width_frame ⟨true, 40⟩ ⟨true, 0⟩ ⟨false, 255⟩ ⟨80⟩ 20).2.1 rfl,
   (c9_set_width_frame ⟨false, 40⟩ ⟨true, 0⟩ ⟨false, 255⟩ ⟨80⟩ 20).2.2.1 rfl,
   (c9_set_width_frame ⟨false, 40⟩ ⟨true, 0⟩ ⟨true, 255⟩ ⟨80⟩ 20).2.2.2 rfl⟩

theorem write_chars_out (col : Nat) (s : List Byte) : (write_chars col s).2 = s := by
  induction s generalizing col with
  | nil => rfl
  | cons c rest ih =>
    by_cases h13 : c = 13 <;> simp [write_chars, h13, ih]

theorem write_chars_col_range (s : List Byte) (col : Nat)
    (h1 : 1 ≤ col) (h2 : col ≤ 256) :
    1 ≤ (write_chars col s).1 ∧ (write_chars col s).1 ≤ 256 := by
  induction s generalizing col with
  | nil => exact ⟨h1, h2⟩
  | cons c rest ih =>
    by_cases h13 : c = 13
    · simpa [write_chars, h13] using ih 1 (by omega) (by omega)
    · by_cases hpr : 32 ≤ c
      · by_cases hw : col + 1 = 257
        · simpa [write_chars, h13, hpr, hw] using ih 1 (by omega) (by omega)
        · simpa [write_chars, h13, hpr, hw] using ih (col + 1) (by omega) (by omega)
      · simpa [write_chars, h13, hpr] using ih col h1 h2

/-- C4 counterexample: writing 20 printable characters at column 1 with
width 10 and `can_break` inserts *no* line break (the output equals the
string), although `c-1+L = 20 > 10` and `w = 10 ≠ 255` — the claim predicts
exactly one break.  The break condition also requires `col ≠ 1`. -/
theorem c4_counterexample :
    (tf_write 1 10 (List.replicate 20 65) true).2 = List.replicate 20 65 ∧
    (line_width_newline (List.replicate 20 65)).1 = 20 ∧
    (line_width_newline (List.replicate 20 65)).2 = false ∧
    1 - 1 + 20 > 10 ∧ (10 : Nat) ≠ 255 := by
  refine ⟨?_, by decide, by decide, by decide, by decide⟩
  decide

/-- C4 amended: for a newline-free string of printable length `L` written
via `TextFileBase.write` with `can_break` at column `c` and width `w`:
no line break is inserted iff `c = 1`, or `w = 255`, or `c-1+L ≤ w`;
exactly one line break is inserted iff `c ≠ 1`, `w ≠ 255` and `c-1+L > w`. -/
theorem c4_write_break (col width : Nat) (s : List Byte)
    (hnl : (line_width_newline s).2 = false) :
    ((tf_write col width s true).2 = s ↔
      (col = 1 ∨ width = 255 ∨ col - 1 + (line_width_newline s).1 ≤ width)) ∧
    ((tf_write col width s true).2 = 13 :: s ↔
      (col ≠ 1 ∧ width ≠ 255 ∧ col - 1 + (line_width_newline s).1 > width)) := by
  unfold tf_write
  by_cases hcond : (true = true ∧ width ≠ 255 ∧ col ≠ 1 ∧
      col - 1 + (line_width_newline s).1 > width ∧ (line_width_newline s).2 = false)
  · rw [if_pos hcond]
    constructor
    · simp only [write_chars_out]
      constructor
      · intro habs
        exact absurd habs (List.cons_ne_self 13 s)
      · intro hdisj
        rcases hcond with ⟨-, hw, hc, hgt, -⟩
        rcases hdisj with h | h | h
        · exact absurd h hc
        · exact absurd h hw
        · omega
    · simp [write_chars_out]
      tauto
  · rw [if_neg hcond]
    constructor
    · simp only [write_chars_out]
      constructor
      · intro _
        by_contra hno
        push_neg at hno
        exact hcond ⟨rfl, hno.2.1, hno.1, by omega, hnl⟩
      · intro _
        trivial
    · simp only [write_chars_out]
      constructor
      · intro habs
        exact absurd habs.symm (List.cons_ne_self 13 s)
      · intro hconj
        exact absurd ⟨rfl, hconj.2.1, hconj.1, hconj.2.2, hnl⟩ hcond

theorem c4_write_break_witness :
    (line_width_newline [65, 66]).2 = false ∧
    ((tf_write 3 10 [65, 66] true).2 = [65, 66] ↔
      ((3 : Nat) = 1 ∨ (10 : Nat) = 255 ∨ 3 - 1 + (line_width_newline [65, 66]).1 ≤ 10)) ∧
    ((tf_write 3 10 [65, 66] true).2 = 13 :: [65, 66] ↔
      ((3 : Nat) ≠ 1 ∧ (10 : Nat) ≠ 255 ∧ 3 - 1 + (line_width_newline [65, 66]).1 > 10)) :=
  ⟨by decide, (c4_write_break 3 10 [65, 66] (by decide)).1,
    (c4_write_break 3 10 [65, 66] (by decide)).2⟩

/-- C5: `col` stays within [1, 256] across any `write` (every printable
character increments it, wrapping 257 → 1, independent of `width`), and
writing 256 consecutive printable characters starting at column 1 with
width 255 returns `col` to 1. -/
theorem c5_col_wrap (s : List Byte) (col width : Nat) (cb : Bool)
    (h1 : 1 ≤ col) (h2 : col ≤ 256) :
    (1 ≤ (tf_write col width s cb).1 ∧ (tf_write col width s cb).1 ≤ 256) ∧
    (tf_write 1 255 (List.replicate 256 65) true).1 = 1 := by
  constructor
  · unfold tf_write
    dsimp only
    split
    · exact write_chars_col_range s 1 (by omega) (by omega)
    · exact write_chars_col_range s col h1 h2
  · set_option maxRecDepth 8000 in decide

theorem c5_col_wrap_witness :
    ((1 ≤ (tf_write 1 255 (List.replicate 256 65) true).1 ∧
        (tf_write 1 255 (List.replicate 256 65) true).1 ≤ 256) ∧
      (tf_write 1 255 (List.replicate 256 65) true).1 = 1) :=
  c5_col_wrap (List.replicate 256 65) 1 255 true (by decide) (by decide)

theorem scan_update_no_nul (tc : TypeK) (q : Bool) (b : Byte) (word blanks : List Byte)
    (hw : (0 : Byte) ∉ word) (hb : (0 : Byte) ∉ blanks) :
    (0 : Byte) ∉ (scan_update tc q b word blanks).1 ∧
      (0 : Byte) ∉ (scan_update tc q b word blanks).2 := by
  unfold scan_update
  by_cases h0 : b = 0
  · simp [h0, hw, hb]
  · have h0' : (0 : Byte) ≠ b := fun h => h0 h.symm
    by_cases hws : b ∈ whitespace_input ∧ q = false
    · by_cases hstr : tc = TypeK.str <;>
        simp [h0, hws, hstr, hw, hb, h0']
    · simp [h0, hws, hw, hb, h0']

theorem input_scan_no_nul (tc : TypeK) (ss : List Byte) (q : Bool) (f : TF)
    (c : Option Byte) (word blanks : List Byte) :
    (0 : Byte) ∉ word → (0 : Byte) ∉ blanks →
      (0 : Byte) ∉ (input_scan tc ss q f c word blanks).1 := by
  induction f, c, word, blanks using input_scan.induct tc ss q with
  | case1 f word _blanks =>
    intro hw _
    simpa [input_scan] using hw
  | case2 f b word blanks hg =>
    intro hw _
    rw [input_scan]
    simpa [hg] using hw
  | case3 f b word blanks hng hq =>
    intro hw _
    rw [input_scan]
    simpa [hng, hq] using hw
  | case4 f b word blanks hng hnq hlf f1 h1 ih =>
    intro hw hb
    obtain ⟨hb10, hqf⟩ := hlf
    subst hb10
    subst hqf
    have hA : ¬(tc ≠ TypeK.str ∧ (10 : Byte) ∈ ss) := fun h => hng (Or.inl h)
    rw [input_scan, h1]
    simpa [hA] using ih hw hb
  | case5 f b word blanks hng hnq hlf f1 h1 c2 f2 h2 ih =>
    intro hw hb
    obtain ⟨hb10, hqf⟩ := hlf
    subst hb10
    subst hqf
    have hA : ¬(tc ≠ TypeK.str ∧ (10 : Byte) ∈ ss) := fun h => hng (Or.inl h)
    rw [input_scan, h1]
    simpa [hA, h2] using ih hw hb
  | case6 f b word blanks hng hnq hlf c1 f1 hne h1 ih =>
    intro hw hb
    obtain ⟨hb10, hqf⟩ := hlf
    subst hb10
    subst hqf
    have hA : ¬(tc ≠ TypeK.str ∧ (10 : Byte) ∈ ss) := fun h => hng (Or.inl h)
    have hne' : ¬(c1 = 13) := hne
    rw [input_scan, h1]
    simpa [hA, hne'] using ih hw hb
  | case7 f b word blanks hng hnq hnlf wb hcap =>
    intro hw hb
    rw [input_scan]
    have hcap' : (scan_update tc q b word blanks).1.length
        + (scan_update tc q b word blanks).2.length ≥ 255 := hcap
    simpa [hng, hnq, hnlf, hcap'] using (scan_update_no_nul tc q b word blanks hw hb).1
  | case8 f b word blanks hng hnq hnlf wb hncap c2 f2 h3 ih =>
    intro hw hb
    rw [input_scan, h3]
    have hncap' : ¬((scan_update tc q b word blanks).1.length
        + (scan_update tc q b word blanks).2.length ≥ 255) := hncap
    have hnn := scan_update_no_nul tc q b word blanks hw hb
    simpa [hng, hnq, hnlf, hncap'] using ih hnn.1 hnn.2

theorem input_entry_ok_no_nul (ss : List Byte) (tc : TypeK) (ape : Bool) (f : TF)
    (w : List Byte) (t : Option Byte) (f' : TF)
    (h : input_entry ss tc ape f = .ok (w, t, f')) : (0 : Byte) ∉ w := by
  have base := input_scan_no_nul tc ss (input_entry_head tc f).quoted
    (input_entry_head tc f).st (input_entry_head tc f).c2 [] []
    (by simp) (by simp)
  unfold input_entry at h
  dsimp only at h
  split at h
  · exact Except.noConfusion h
  · split at h
    · split at h
      · simp only [Except.ok.injEq, Prod.mk.injEq] at h
        exact h.1 ▸ base
      · simp only [Except.ok.injEq, Prod.mk.injEq] at h
        exact h.1 ▸ base
    · simp only [Except.ok.injEq, Prod.mk.injEq] at h
      exact h.1 ▸ base

theorem read_one_none_next {f f' : TF} (h : f.read_one = (none, f')) :
    f'.next_char = none ∨ f'.next_char = some 26 := by
  have he := TF.read_one_none_eq h
  obtain ⟨nc, st, ch, la⟩ := f
  subst he
  rcases nc with _ | b
  · left
    rfl
  · by_cases h26 : b = 26
    · right
      simp [h26]
    · rcases st with _ | ⟨d, rest⟩ <;> simp [TF.read_one, h26] at h

theorem read_line_go_spec (f : TF) (out : List Byte) (hout : out.length < 255) :
    (read_line_go f out).1.length ≤ 255 ∧
    (if (read_line_go f out).1.length = 255 then
        (read_line_go f out).2.1 =
          (if (read_line_go f out).2.2.next_char = some 13 then some (some 13) else none)
      else
        ((read_line_go f out).2.1 = some (some 13) ∨
          ((read_line_go f out).2.1 = some none ∧
            ((read_line_go f out).2.2.next_char = none ∨
              (read_line_go f out).2.2.next_char = some 26)))) := by
  induction f, out using read_line_go.induct with
  | case1 f out snd h =>
    rw [read_line_go, h]
    have hlt : out.length ≠ 255 := by omega
    simp [hlt, read_one_none_next h]
    omega
  | case2 f out f1 h =>
    rw [read_line_go, h]
    have hlt : out.length ≠ 255 := by omega
    simp [hlt]
    omega
  | case3 f out c f1 h hc out' hcap =>
    rw [read_line_go, h]
    have hcap' : (out ++ [c]).length = 255 := hcap
    simp [hc, hcap']
  | case4 f out c f1 h hc out' hcap ih =>
    rw [read_line_go, h]
    have hcap' : ¬(out ++ [c]).length = 255 := hcap
    have hlt : (out ++ [c]).length < 255 := by
      simp only [List.length_append, List.length_cons, List.length_nil] at hcap' ⊢
      omega
    simp only [hc, hcap', if_neg, if_false, ite_false]
    simpa using ih hlt

/-- C6: `read_line` reads until CR, EOF or the 255-character cap and
returns `(line, terminator)` with the line never longer than 255: when the
cap was hit (length 255) the terminator is CR if the next unread character
is CR and None otherwise; when the line is shorter the terminator is either
CR or the empty string, the latter only with the lookahead at end of stream
(empty or the soft-EOF marker).  On the stream "HELLO\rWORLD" it yields
("HELLO", CR) and then ("WORLD", ""). -/
theorem c6_read_line (f : TF) :
    ((read_line f).1.length ≤ 255 ∧
      (if (read_line f).1.length = 255 then
          (read_line f).2.1 =
            (if (read_line f).2.2.next_char = some 13 then some (some 13) else none)
        else
          ((read_line f).2.1 = some (some 13) ∨
            ((read_line f).2.1 = some none ∧
              ((read_line f).2.2.next_char = none ∨
                (read_line f).2.2.next_char = some 26))))) ∧
    read_line (TF.ofStream [72, 69, 76, 76, 79, 13, 87, 79, 82, 76, 68])
      = ([72, 69, 76, 76, 79], some (some 13), ⟨some 87, [79, 82, 76, 68], some 13, some 79⟩) ∧
    read_line ⟨some 87, [79, 82, 76, 68], some 13, some 79⟩
      = ([87, 79, 82, 76, 68], some none, ⟨none, [], some 68, some 76⟩) := by
  refine ⟨read_line_go_spec f [] (by simp), ?_, ?_⟩ <;>
    simp [read_line, read_line_go, TF.read_one, TF.ofStream]

theorem rt_update_no_nul (tc : TypeK) (q : Bool) (c : List Byte) (word blanks : List Byte)
    (hw : (0 : Byte) ∉ word) (hb : (0 : Byte) ∉ blanks)
    (hc : (0 : Byte) ∈ c → c = [0]) :
    (0 : Byte) ∉ (rt_update tc q c word blanks).1 ∧
      (0 : Byte) ∉ (rt_update tc q c word blanks).2 := by
  unfold rt_update
  by_cases h0 : c = [0]
  · simp [h0, hw, hb]
  · have hnc : (0 : Byte) ∉ c := fun hmem => h0 (hc hmem)
    by_cases hws : py_in c whitespace_input = true ∧ q = false
    · by_cases hstr : tc = TypeK.str <;> simp [h0, hws, hstr, hw, hb, hnc]
    · simp [h0, hws, hw, hb, hnc]

theorem rt_scan_nul (tc : TypeK) (q : Bool) (src : List (List Byte)) (c : List Byte)
    (word blanks : List Byte) (pt : Bool) :
    (∀ s ∈ src, (0 : Byte) ∈ s → s = [0]) → ((0 : Byte) ∈ c → c = [0]) →
      (0 : Byte) ∉ word → (0 : Byte) ∉ blanks →
      (0 : Byte) ∉ (rt_scan tc q src c word blanks pt).1 := by
  induction src, c, word, blanks, pt using rt_scan.induct tc q with
  | case1 src word blanks pt =>
    intro _ _ hw _
    rw [rt_scan]
    simpa using hw
  | case2 src c word blanks pt hc hg =>
    intro _ _ hw _
    rw [rt_scan]
    simpa [hc, hg] using hw
  | case3 src c word blanks pt hc hng hlf src1 c2 src2 h2 h1 ih =>
    intro hsrc hcc hw hb
    obtain ⟨hc10, hqf⟩ := hlf
    subst hc10
    subst hqf
    have hp1 := rt_read_one_prop h1 hsrc
    have hp2 := rt_read_one_prop h2 hp1.2
    rw [rt_scan, h1]
    simpa +decide [h2] using ih hp2.2 hp2.1 hw hb
  | case4 src c word blanks pt hc hng hlf c1 src1 h1 hne ih =>
    intro hsrc hcc hw hb
    obtain ⟨hc10, hqf⟩ := hlf
    subst hc10
    subst hqf
    have hp1 := rt_read_one_prop h1 hsrc
    rw [rt_scan, h1]
    simpa +decide [hne] using ih hp1.2 hp1.1 hw hb
  | case5 src c word blanks pt hc hng hnlf wbp hcap =>
    intro hsrc hcc hw hb
    have hwbp : wbp = (if c = [34] ∧ q = true then (word, blanks, true)
        else ((rt_update tc q c word blanks).1, (rt_update tc q c word blanks).2, pt)) := rfl
    rw [hwbp] at hcap
    rw [rt_scan]
    by_cases hq34 : c = [34] ∧ q = true
    · have hcap' : word.length + blanks.length ≥ 255 := by
        simpa [hq34] using hcap
      simpa [hc, hng, hnlf, hq34, hcap'] using hw
    · have hcap' : (rt_update tc q c word blanks).1.length
          + (rt_update tc q c word blanks).2.length ≥ 255 := by
        simpa [hq34] using hcap
      simpa [hc, hng, hnlf, hq34, hcap']
        using (rt_update_no_nul tc q c word blanks hw hb hcc).1
  | case6 src c word blanks pt hc hng hnlf wbp hncap c2 src2 h3 hpt hsep =>
    intro hsrc hcc hw hb
    have hwbp : wbp = (if c = [34] ∧ q = true then (word, blanks, true)
        else ((rt_update tc q c word blanks).1, (rt_update tc q c word blanks).2, pt)) := rfl
    rw [hwbp] at hncap hpt
    rw [rt_scan, h3]
    by_cases hq34 : c = [34] ∧ q = true
    · have hncap' : ¬(word.length + blanks.length ≥ 255) := by
        simpa [hq34] using hncap
      have hpt' : not_ws_rt c2 = true := by
        simpa [hq34] using hpt.2
      simpa [hc, hng, hnlf, hq34, hncap', hpt', hsep] using hw
    · have hncap' : ¬((rt_update tc q c word blanks).1.length
          + (rt_update tc q c word blanks).2.length ≥ 255) := by
        simpa [hq34] using hncap
      have hpt' : (pt = true ∧ not_ws_rt c2 = true) := by
        simpa [hq34] using hpt
      simpa [hc, hng, hnlf, hq34, hncap', hpt', hsep]
        using (rt_update_no_nul tc q c word blanks hw hb hcc).1
  | case7 src c word blanks pt hc hng hnlf wbp hncap c2 src2 h3 hpt hnsep =>
    intro hsrc hcc hw hb
    have hwbp : wbp = (if c = [34] ∧ q = true then (word, blanks, true)
        else ((rt_update tc q c word blanks).1, (rt_update tc q c word blanks).2, pt)) := rfl
    rw [hwbp] at hncap hpt
    rw [rt_scan, h3]
    by_cases hq34 : c = [34] ∧ q = true
    · have hncap' : ¬(word.length + blanks.length ≥ 255) := by
        simpa [hq34] using hncap
      have hpt' : not_ws_rt c2 = true := by
        simpa [hq34] using hpt.2
      simpa [hc, hng, hnlf, hq34, hncap', hpt', hnsep] using hw
    · have hncap' : ¬((rt_update tc q c word blanks).1.length
          + (rt_update tc q c word blanks).2.length ≥ 255) := by
        simpa [hq34] using hncap
      have hpt' : (pt = true ∧ not_ws_rt c2 = true) := by
        simpa [hq34] using hpt
      simpa [hc, hng, hnlf, hq34, hncap', hpt', hnsep]
        using (rt_update_no_nul tc q c word blanks hw hb hcc).1
  | case8 src c word blanks pt hc hng hnlf wbp hncap c2 src2 h3 hnpt ih =>
    intro hsrc hcc hw hb
    have hwbp : wbp = (if c = [34] ∧ q = true then (word, blanks, true)
        else ((rt_update tc q c word blanks).1, (rt_update tc q c word blanks).2, pt)) := rfl
    rw [hwbp] at hncap hnpt ih
    have hp3 := rt_read_one_prop h3 hsrc
    rw [rt_scan, h3]
    by_cases hq34 : c = [34] ∧ q = true
    · have hncap' : ¬(word.length + blanks.length ≥ 255) := by
        simpa [hq34] using hncap
      have hnpt' : ¬(not_ws_rt c2 = true) := by
        simpa [hq34] using hnpt
      rw [if_pos hq34] at ih
      simpa [hc, hng, hnlf, hq34, hncap', hnpt'] using ih hp3.2 hp3.1 hw hb
    · have hncap' : ¬((rt_update tc q c word blanks).1.length
          + (rt_update tc q c word blanks).2.length ≥ 255) := by
        simpa [hq34] using hncap
      have hnn := rt_update_no_nul tc q c word blanks hw hb hcc
      have hnpt' : ¬(pt = true ∧ not_ws_rt c2 = true) := by
        simpa [hq34] using hnpt
      rw [if_neg hq34] at ih
      simpa [hc, hng, hnlf, hq34, hncap', hnpt'] using ih hp3.2 hp3.1 hnn.1 hnn.2

theorem input_entry_realtime_head_prop (tc : TypeK) (r : RT)
    (hr : ∀ s ∈ r.reads, (0 : Byte) ∈ s → s = [0])
    (hl : (0 : Byte) ∈ r.input_last → r.input_last = [0]) :
    ((0 : Byte) ∈ (input_entry_realtime_head tc r).c2 →
        (input_entry_realtime_head tc r).c2 = [0]) ∧
      ∀ s ∈ (input_entry_realtime_head tc r).st, (0 : Byte) ∈ s → s = [0] := by
  obtain ⟨reads, il⟩ := r
  by_cases hil : il = []
  · subst hil
    cases reads with
    | nil => simp [input_entry_realtime_head, rt_read_one]
    | cons x rest =>
      by_cases hq : (x = [34] && tc = TypeK.str) = true
      · cases rest with
        | nil => simp [input_entry_realtime_head, rt_read_one, hq]
        | cons y rest2 =>
          simp only [input_entry_realtime_head, rt_read_one, hq, if_pos, if_true]
          exact ⟨hr y (by simp), fun s hs => hr s (by simp [hs])⟩
      · simp only [input_entry_realtime_head, rt_read_one, hq, if_false]
        simp only [Bool.not_eq_true] at hq
        simp [hq]
        exact ⟨hr x (by simp), fun s hs => hr s (by simp [hs])⟩
  · by_cases hq : (il = [34] && tc = TypeK.str) = true
    · cases reads with
      | nil => simp [input_entry_realtime_head, rt_read_one, hil, hq]
      | cons y rest2 =>
        simp only [input_entry_realtime_head, rt_read_one, hil, hq, if_neg, if_true]
        simp [hil, hq]
        exact ⟨hr y (by simp), fun s hs => hr s (by simp [hs])⟩
    · simp only [input_entry_realtime_head]
      simp [hil, hq]
      exact ⟨hl, hr⟩

theorem input_entry_realtime_ok_nul (tc : TypeK) (ape : Bool) (r : RT)
    (w t : List Byte) (r' : RT)
    (hr : ∀ s ∈ r.reads, (0 : Byte) ∈ s → s = [0])
    (hl : (0 : Byte) ∈ r.input_last → r.input_last = [0])
    (h : input_entry_realtime tc ape r = .ok (w, t, r')) : (0 : Byte) ∉ w := by
  have hp := input_entry_realtime_head_prop tc r hr hl
  have base := rt_scan_nul tc (input_entry_realtime_head tc r).quoted
    (input_entry_realtime_head tc r).st (input_entry_realtime_head tc r).c2 [] [] false
    hp.2 hp.1 (by simp) (by simp)
  unfold input_entry_realtime at h
  dsimp only at h
  split at h
  · exact Except.noConfusion h
  · simp only [Except.ok.injEq, Prod.mk.injEq] at h
    exact h.1 ▸ base

/-- C7 counterexample: the realtime NUL-dropping branch is the whole-string
equality `c == b'\0'`, so a multi-byte read containing NUL — an unmapped
NUL-prefixed eascii extended code passed through whole by
`KYBDFile.read_one` (e.g. `b'\x00\x73'`) — fails it, fails the whitespace
substring test, and is appended verbatim: the returned word contains a NUL
byte, refuting the universal no-NUL claim for the realtime variant. -/
theorem c7_counterexample :
    input_entry_realtime TypeK.str false ⟨[[0, 115], [13]], []⟩
      = .ok ([0, 115], [13], ⟨[], []⟩) ∧
    (0 : Byte) ∈ ([0, 115] : List Byte) := by
  constructor
  · simp +decide [input_entry_realtime, input_entry_realtime_head, rt_scan, rt_update,
      rt_read_one, py_in, not_ws_rt, whitespace_input]
  · decide

/-- C7 amended: in the buffered `input_entry`, NUL bytes never appear in
the returned field value, wherever they occur ("A\x00B\r" yields "AB").
In the realtime variant NUL is dropped only when it arrives as the lone
single-byte string `b'\0'`: provided every read of the source (and the
pushback slot) delivers NUL only as that lone string — in particular for
every single-byte source — no NUL appears in the returned word, and the
single-byte-per-read "A\x00B\r" yields "AB" there too. -/
theorem c7_nul_dropped :
    (∀ (ss : List Byte) (tc : TypeK) (ape : Bool) (f : TF)
        (w : List Byte) (t : Option Byte) (f' : TF),
      input_entry ss tc ape f = .ok (w, t, f') → (0 : Byte) ∉ w) ∧
    (∀ (tc : TypeK) (ape : Bool) (r : RT)
        (w t : List Byte) (r' : RT),
      (∀ s ∈ r.reads, (0 : Byte) ∈ s → s = [0]) →
      ((0 : Byte) ∈ r.input_last → r.input_last = [0]) →
      input_entry_realtime tc ape r = .ok (w, t, r') → (0 : Byte) ∉ w) ∧
    input_entry [32] TypeK.str false (TF.ofStream [65, 0, 66, 13])
      = .ok ([65, 66], some 13, ⟨none, [], some 13, some 66⟩) ∧
    input_entry_realtime TypeK.str false ⟨[[65], [0], [66], [13]], []⟩
      = .ok ([65, 66], [13], ⟨[], []⟩) := by
  refine ⟨input_entry_ok_no_nul, input_entry_realtime_ok_nul, ?_, ?_⟩
  · simp [input_entry, input_entry_head, input_scan, scan_update, TF.read_one,
      TF.skip_whitespace_input, TF.skip_spaces, inputQuoted, ws_term,
      next_in_comma_cr, TF.ofStream, whitespace_input]
  · simp +decide [input_entry_realtime, input_entry_realtime_head, rt_scan, rt_update,
      rt_read_one, py_in, not_ws_rt, whitespace_input]

theorem c7_nul_dropped_witness : (0 : Byte) ∉ ([65, 66] : List Byte) :=
  c7_nul_dropped.2.1 TypeK.str false ⟨[[65], [0], [66], [13]], []⟩
    [65, 66] [13] ⟨[], []⟩ (by decide) (by decide)
    (by simp +decide [input_entry_realtime, input_entry_realtime_head, rt_scan, rt_update,
      rt_read_one, py_in, not_ws_rt, whitespace_input])

theorem input_scan_console_num_term (f : TF) (c : Option Byte) (word blanks : List Byte) :
    word.length + blanks.length < 255 →
      ∀ b, (input_scan TypeK.num [] false f c word blanks).2.1 = some b →
        b ∉ whitespace_input := by
  induction f, c, word, blanks using input_scan.induct TypeK.num [] false with
  | case1 f word _blanks =>
    intro _ b hb
    simp [input_scan] at hb
  | case2 f b word blanks hg =>
    intro _ b' hb'
    have hg' : b = 44 ∨ b = 13 := by
      rcases hg with ⟨-, habs⟩ | ⟨h, -⟩
      · exact absurd habs (List.not_mem_nil b)
      · exact h
    rw [input_scan] at hb'
    rw [if_pos (Or.inr ⟨hg', rfl⟩)] at hb'
    simp only [Prod.snd, Prod.fst, Option.some.injEq] at hb'
    subst hb'
    rcases hg' with h44 | h13
    · subst h44
      decide
    · subst h13
      decide
  | case3 f b word blanks hng hq =>
    exact absurd hq.2 (by decide)
  | case4 f b word blanks hng hnq hlf f1 h1 ih =>
    intro hlen b' hb'
    obtain ⟨hb10, -⟩ := hlf
    subst hb10
    have hA : ¬(TypeK.num ≠ TypeK.str ∧ (10 : Byte) ∈ ([] : List Byte)) := by simp
    rw [input_scan, h1] at hb'
    exact ih hlen b' (by simpa [hA] using hb')
  | case5 f b word blanks hng hnq hlf f1 h1 c2 f2 h2 ih =>
    intro hlen b' hb'
    obtain ⟨hb10, -⟩ := hlf
    subst hb10
    have hA : ¬(TypeK.num ≠ TypeK.str ∧ (10 : Byte) ∈ ([] : List Byte)) := by simp
    rw [input_scan, h1] at hb'
    exact ih hlen b' (by simpa [hA, h2] using hb')
  | case6 f b word blanks hng hnq hlf c1 f1 hne h1 ih =>
    intro hlen b' hb'
    obtain ⟨hb10, -⟩ := hlf
    subst hb10
    have hA : ¬(TypeK.num ≠ TypeK.str ∧ (10 : Byte) ∈ ([] : List Byte)) := by simp
    have hne' : ¬(c1 = 13) := hne
    rw [input_scan, h1] at hb'
    exact ih hlen b' (by simpa [hA, hne'] using hb')
  | case7 f b word blanks hng hnq hnlf wb hcap =>
    intro hlen b' hb'
    have hcap' : (scan_update TypeK.num false b word blanks).1.length
        + (scan_update TypeK.num false b word blanks).2.length ≥ 255 := hcap
    -- if `b` were NUL or whitespace, `scan_update` would leave the
    -- accumulators unchanged, contradicting the cap with `hlen`;
    -- so `b` was appended in the final branch and is not whitespace
    by_cases h0 : b = 0
    · rw [scan_update, if_pos h0] at hcap'
      simp at hcap'
      omega
    · by_cases hwsb : b ∈ whitespace_input
      · rw [scan_update, if_neg h0, if_pos ⟨hwsb, rfl⟩] at hcap'
        simp at hcap'
        omega
      · rw [input_scan] at hb'
        rw [if_neg hng, if_neg hnq, if_neg hnlf] at hb'
        dsimp only at hb'
        rw [if_pos hcap'] at hb'
        simp only [Option.some.injEq] at hb'
        subst hb'
        exact hwsb
  | case8 f b word blanks hng hnq hnlf wb hncap c2 f2 h3 ih =>
    intro hlen b' hb'
    have hncap' : ¬((scan_update TypeK.num false b word blanks).1.length
        + (scan_update TypeK.num false b word blanks).2.length ≥ 255) := hncap
    have hwb : wb = scan_update TypeK.num false b word blanks := rfl
    rw [hwb] at ih
    rw [input_scan] at hb'
    rw [if_neg hng, if_neg hnq, if_neg hnlf] at hb'
    dsimp only at hb'
    rw [if_neg hncap', h3] at hb'
    dsimp only at hb'
    exact ih (by omega) b' hb'

theorem input_entry_console_num_term (f : TF) (ape : Bool)
    (w : List Byte) (t : Option Byte) (f' : TF)
    (h : input_entry [] TypeK.num ape f = .ok (w, t, f')) : t ≠ some 32 := by
  have hq : (input_entry_head TypeK.num f).quoted = false := by
    rw [head_quoted]
    simp [inputQuoted]
  have hterm := input_scan_console_num_term (input_entry_head TypeK.num f).st
    (input_entry_head TypeK.num f).c2 [] [] (by simp)
  unfold input_entry at h
  dsimp only at h
  rw [hq] at h
  split at h
  · exact Except.noConfusion h
  · split at h
    · rename_i hcond
      exfalso
      rcases hcond with hws | ⟨hfalse, -⟩
      · rcases hc : (input_scan TypeK.num [] false (input_entry_head TypeK.num f).st
            (input_entry_head TypeK.num f).c2 [] []).2.1 with _ | b
        · rw [hc] at hws
          exact absurd hws (by simp [ws_term])
        · rw [hc] at hws
          have hbnotws := hterm b hc
          simp [ws_term, hbnotws] at hws
      · exact Bool.noConfusion hfalse
    · simp only [Except.ok.injEq, Prod.mk.injEq] at h
      obtain ⟨-, ht, -⟩ := h
      intro h32
      rw [h32] at ht
      have := hterm 32 ht
      simp [whitespace_input] at this

/-- C10: with `InputTextFile`'s empty `soft_sep`, a numeric field returned
by `input_entry` is never terminated by a space — interior spaces are
skipped: the console line "1 2\r" yields the single field ("12", CR),
whereas the disk tokenizer (`soft_sep = b' '`) on the same input yields
("1", " "). -/
theorem c10_console_numeric :
    (∀ (f : TF) (ape : Bool) (w : List Byte) (t : Option Byte) (f' : TF),
      input_entry [] TypeK.num ape f = .ok (w, t, f') → t ≠ some 32) ∧
    input_entry [] TypeK.num false (TF.ofStream [49, 32, 50, 13])
      = .ok ([49, 50], some 13, ⟨none, [], some 13, some 50⟩) ∧
    input_entry [32] TypeK.num false (TF.ofStream [49, 32, 50, 13])
      = .ok ([49], some 32, ⟨some 50, [13], some 32, some 49⟩) := by
  refine ⟨fun f ape w t f' h => input_entry_console_num_term f ape w t f' h, ?_, ?_⟩ <;>
    simp [input_entry, input_entry_head, input_scan, scan_update, TF.read_one,
      TF.skip_whitespace_input, TF.skip_spaces, inputQuoted, ws_term,
      next_in_comma_cr, TF.ofStream, whitespace_input]

theorem c10_console_numeric_witness : (some 13 : Option Byte) ≠ some 32 :=
  c10_console_numeric.1 (TF.ofStream [49, 32, 50, 13]) false [49, 50] (some 13)
    ⟨none, [], some 13, some 50⟩
    (by simp [input_entry, input_entry_head, input_scan, scan_update, TF.read_one,
      TF.skip_whitespace_input, TF.skip_spaces, inputQuoted, ws_term,
      next_in_comma_cr, TF.ofStream, whitespace_input])
